import Mathlib

/-!
# Verification of the appointment-scheduler core logic

A shallow embedding, in Lean 4, of the availability / slot-derivation logic
of the `cosmicjs/appointment-scheduler` repository, together with theorems
settling the specification's claims about it.

The embedded functions come from:
* `src/Components/App.js` — `handleFetch` (the schedule builder),
  `checkDisableDate` (day selectability), `renderAppointmentTimes`
  (slot selectability), `validateEmail` / `validatePhone` (field
  validators), `handleSubmit` (assembling the wire appointment);
* `app.js` — the `POST /api/appointments` handler (phone normalization,
  SMS body construction, the object written to the store, the HTTP
  response).

JavaScript values are modelled as follows: a schedule is a JS object whose
keys are `YYYY-DD-MM` date strings and whose values are either the boolean
`true` ("fully booked") or an 8-element boolean array; we model it as an
insertion-ordered association list from `String` to a two-constructor
`ScheduleEntry` type.  Machine arithmetic does not appear (all numbers in
play are small date components and slot indices), so `Nat` is exact.
-/

/-- A calendar day, no time component.  `month` is 1–12, `day` is 1–31.
`moment` start-of-day values in the source are exactly this data. -/
structure Date where
  year : Nat
  month : Nat
  day : Nat
deriving DecidableEq, Repr

/-- Zero-pad a numeral to two digits, as `moment`'s `DD` / `MM` format
tokens do. -/
def pad2 (n : Nat) : String :=
  if n < 10 then "0" ++ toString n else toString n

/-- Zero-pad a numeral to four digits, as `moment`'s `YYYY` token does. -/
def pad4 (n : Nat) : String :=
  if n < 10 then "000" ++ toString n
  else if n < 100 then "00" ++ toString n
  else if n < 1000 then "0" ++ toString n
  else toString n

/-- `moment(d).format('YYYY-DD-MM')` — the repository's wire date format,
with the day and month fields deliberately swapped relative to ISO. -/
def formatYDM (d : Date) : String :=
  pad4 d.year ++ "-" ++ pad2 d.day ++ "-" ++ pad2 d.month

/-- `moment(day).startOf('day').diff(moment().startOf('day')) < 0`:
whether calendar day `a` is strictly before calendar day `b`.  For valid
dates the timestamp comparison is the lexicographic comparison of
(year, month, day). -/
def dateBefore (a b : Date) : Bool :=
  a.year < b.year ||
    (a.year == b.year &&
      (a.month < b.month || (a.month == b.month && a.day < b.day)))

/-- One value of the schedule object: the JS boolean `true`
(`fullyBooked`) or a JS array of 8 booleans (`bitmap`).  "Open" days are
represented by the key being absent, as in the source. -/
inductive ScheduleEntry where
  | fullyBooked : ScheduleEntry
  | bitmap (bits : List Bool) : ScheduleEntry
deriving DecidableEq, Repr

/-- A JS object with string keys, as an insertion-ordered association
list.  Keys are inserted at the end and updated in place, exactly as
property assignment behaves on a JS object literal. -/
abbrev Schedule := List (String × ScheduleEntry)

/-- Property read `schedule[d]`: the value at the first (only) occurrence
of key `d`, or `none` when the key is absent (JS `undefined`). -/
def findEntry : Schedule → String → Option ScheduleEntry
  | [], _ => none
  | (k, e) :: rest, d => if k = d then some e else findEntry rest d

/-- Property write `schedule[d] = v`: update the existing key in place,
or append a new key at the end. -/
def setEntry : Schedule → String → ScheduleEntry → Schedule
  | [], d, v => [(d, v)]
  | (k, e) :: rest, d, v =>
      if k = d then (k, v) :: rest else (k, e) :: setEntry rest d v

/-- A booking record as the builder consumes it: the wire date string and
the slot index.  Slot indices are 0–7 (`SlotIndex` of the data model);
the store only ever holds slots written by the UI's 8 radio buttons. -/
structure BookingRecord where
  date : String
  slot : Fin 8
deriving DecidableEq, Repr

/-- One step of the `appointments.reduce` loop in `handleFetch`
(App.js 95–102):

* `!currentSchedule[date]` — when the key is absent (`undefined`, the only
  falsy value a schedule entry can take), initialize it to
  `Array(8).fill(false)`;
* `Array.isArray(currentSchedule[dateString]) ? ...[slot] = true : null` —
  mark the slot only when the entry is an array (a `true` entry, e.g.
  today's seed, is left alone).

The source re-formats `date` through
`moment(date, 'YYYY-DD-MM').format('YYYY-DD-MM')`; store dates are written
by the server already in that format, on which the round trip is the
identity, so `date` and `dateString` coincide here. -/
def applyRecord (sched : Schedule) (r : BookingRecord) : Schedule :=
  let s1 := if (findEntry sched r.date).isNone
    then setEntry sched r.date (.bitmap (List.replicate 8 false))
    else sched
  match findEntry s1 r.date with
  | some (.bitmap bits) =>
      setEntry s1 r.date (.bitmap (bits.set r.slot.val true))
  | _ => s1

/-- The collapse pass (App.js 105–108):
`slots.length ? (slots.every(slot => slot === true)) ? schedule[day] = true : null : null`.
A boolean entry has no `.length` (JS `true.length` is `undefined`, falsy),
so only non-empty arrays are examined; an all-`true` array is replaced by
the boolean `true`. -/
def collapseEntry : ScheduleEntry → ScheduleEntry
  | .fullyBooked => .fullyBooked
  | .bitmap bits =>
      if bits.length ≠ 0 && bits.all (· == true) then .fullyBooked
      else .bitmap bits

/-- `handleFetch`'s schedule construction (App.js 92–108): seed
`{ today: true }`, fold the records (when the list is empty the seed is
returned directly), then run the collapse pass over every key. -/
def build (records : List BookingRecord) (today : Date) : Schedule :=
  let initSchedule : Schedule := [(formatYDM today, .fullyBooked)]
  let schedule := if records.isEmpty then initSchedule
    else records.foldl applyRecord initSchedule
  schedule.map (fun p => (p.1, collapseEntry p.2))

/-- `checkDisableDate` (App.js 151–154): a calendar day is disabled when
its entry is the boolean `true` (`=== true`, so a bitmap never matches) or
the day is strictly before today. -/
def checkDisableDate (sched : Schedule) (today day : Date) : Bool :=
  (findEntry sched (formatYDM day) == some .fullyBooked) || dateBefore day today

/-- The spec's `isDaySelectable`: the negation of `checkDisableDate`. -/
def isDaySelectable (sched : Schedule) (today day : Date) : Bool :=
  !(checkDisableDate sched today day)

/-- `moment().hour(9).minute(0).add(slot, 'hours')`'s hour: slot `s`
starts at hour `9 + s`. -/
def slotStartHour (slot : Fin 8) : Nat := 9 + slot.val

/-- `moment.format('a')` on a time with the given hour of day. -/
def hourMeridiem (h : Nat) : String := if h < 12 then "am" else "pm"

/-- `scheduleDisabled` in `renderAppointmentTimes` (App.js 178):
`schedule[ds] ? schedule[ds][slot] : false`.  An absent entry gives
`false`; a bitmap entry gives its slot bit; a boolean `true` entry is
truthy, but `true[slot]` is `undefined` in JS, which is falsy — so a
`fullyBooked` entry disables no slot at this level. -/
def scheduleDisabled (sched : Schedule) (day : String) (slot : Fin 8) : Bool :=
  match findEntry sched day with
  | none => false
  | some .fullyBooked => false
  | some (.bitmap bits) => bits.getD slot.val false

/-- `meridiemDisabled` in `renderAppointmentTimes` (App.js 179):
`appointmentMeridiem ? t1.format('a') === 'am' : t1.format('a') === 'pm'`.
The meridiem filter is the raw state number (0 = AM, 1 = PM), tested for
JS truthiness. -/
def meridiemDisabled (filter : Nat) (slot : Fin 8) : Bool :=
  if filter ≠ 0 then hourMeridiem (slotStartHour slot) == "am"
  else hourMeridiem (slotStartHour slot) == "pm"

/-- A slot's radio button is selectable iff it is not disabled
(`disabled={scheduleDisabled || meridiemDisabled}`, App.js 185). -/
def isSlotSelectable (sched : Schedule) (day : String) (slot : Fin 8)
    (filter : Nat) : Bool :=
  !(scheduleDisabled sched day slot || meridiemDisabled filter slot)

/-!
## Regular-expression matchers

`validateEmail` and `validatePhone` test fixed regular expressions.  We
embed those two regexes as nondeterministic matchers over `List Char`:
a matcher maps an input to the list of possible remainders, and a string
matches when the whole input can be consumed.  Repetition uses fuel
bounded by the input length, which is exhaustive because every repeated
piece of either regex consumes at least one character per iteration.
-/

/-- A nondeterministic matcher: all possible remainders after consuming
a prefix of the input. -/
def Matcher : Type := List Char → List (List Char)

/-- The empty regex: consume nothing. -/
def mEps : Matcher := fun cs => [cs]

/-- A single-character class. -/
def mChar (p : Char → Bool) : Matcher := fun cs =>
  match cs with
  | [] => []
  | c :: rest => if p c then [rest] else []

/-- A literal character. -/
def mLit (c : Char) : Matcher := mChar (fun x => x == c)

/-- Concatenation. -/
def mSeq (a b : Matcher) : Matcher := fun cs => (a cs).flatMap b

/-- Alternation `a|b`. -/
def mAlt (a b : Matcher) : Matcher := fun cs => a cs ++ b cs

/-- Optional `a?`. -/
def mOpt (a : Matcher) : Matcher := fun cs => a cs ++ [cs]

/-- Exactly `n` copies, `a{n}`. -/
def mTimes (a : Matcher) : Nat → Matcher
  | 0 => mEps
  | n + 1 => mSeq a (mTimes a n)

/-- Kleene star with explicit fuel. -/
def mStarFuel (a : Matcher) : Nat → Matcher
  | 0 => mEps
  | n + 1 => fun cs => cs :: (a cs).flatMap (mStarFuel a n)

/-- `a*`, with fuel set to the input length (complete whenever `a` always
consumes at least one character, as every starred piece below does). -/
def mStar (a : Matcher) : Matcher := fun cs => mStarFuel a cs.length cs

/-- `a+`. -/
def mPlus (a : Matcher) : Matcher := mSeq a (mStar a)

/-- Anchored acceptance (`^...$` with no `m` flag): some branch consumes
the entire input. -/
def accepts (m : Matcher) (s : String) : Bool :=
  (m s.data).any (·.isEmpty)

/-- JS `\d`: the ASCII digits. -/
def jsDigit (c : Char) : Bool := '0' ≤ c && c ≤ '9'

/-- JS `\s` (the whitespace characters relevant to ASCII input). -/
def jsSpace (c : Char) : Bool :=
  c == ' ' || c == '\t' || c == '\n' || c == '\r' ||
    c == '\x0b' || c == '\x0c'

/-- The phone regex of `validatePhone` (App.js 147):
`/^(1\s|1|)?((\(\d{3}\))|\d{3})(\-|\s)?(\d{3})(\-|\s)?(\d{4})$/`. -/
def phoneMatcher : Matcher :=
  mSeq (mOpt (mAlt (mSeq (mLit '1') (mChar jsSpace)) (mAlt (mLit '1') mEps)))
    (mSeq (mAlt (mSeq (mLit '(') (mSeq (mTimes (mChar jsDigit) 3) (mLit ')')))
                (mTimes (mChar jsDigit) 3))
      (mSeq (mOpt (mAlt (mLit '-') (mChar jsSpace)))
        (mSeq (mTimes (mChar jsDigit) 3)
          (mSeq (mOpt (mAlt (mLit '-') (mChar jsSpace)))
            (mTimes (mChar jsDigit) 4)))))

/-- `validatePhone`'s test: does the phone regex accept the string? -/
def validatePhoneRegex (s : String) : Bool := accepts phoneMatcher s

/-- The character class `[^<>()\[\]\.,;:\s@\"]` shared by the local-part
and domain pieces of the email regex.  The regex's `i` flag is immaterial
here: a negated class over non-letter exclusions is closed under case
change. -/
def emailAtomChar (c : Char) : Bool :=
  !(c == '<' || c == '>' || c == '(' || c == ')' || c == '[' || c == ']' ||
    c == '.' || c == ',' || c == ';' || c == ':' || c == '@' || c == '"' ||
    jsSpace c)

/-- JS `.` (no `s` flag): any character but a line terminator. -/
def jsDot (c : Char) : Bool := !(c == '\n' || c == '\r')

/-- The email regex of `validateEmail` (App.js 142):
`/^(([^<>()\[\]\.,;:\s@\"]+(\.[^<>()\[\]\.,;:\s@\"]+)*)|(\".+\"))@(([^<>()[\]\.,;:\s@\"]+\.)+[^<>()[\]\.,;:\s@\"]{2,})$/i`. -/
def emailMatcher : Matcher :=
  mSeq
    (mAlt
      (mSeq (mPlus (mChar emailAtomChar))
        (mStar (mSeq (mLit '.') (mPlus (mChar emailAtomChar)))))
      (mSeq (mLit '"') (mSeq (mPlus (mChar jsDot)) (mLit '"'))))
    (mSeq (mLit '@')
      (mSeq (mPlus (mSeq (mPlus (mChar emailAtomChar)) (mLit '.')))
        (mSeq (mTimes (mChar emailAtomChar) 2) (mStar (mChar emailAtomChar)))))

/-- `validateEmail`'s test: does the email regex accept the string? -/
def validateEmailRegex (s : String) : Bool := accepts emailMatcher s

/-- `appointment.phone.replace(/\D/g, '')` (app.js 38): strip every
non-digit character. -/
def normalizePhone (s : String) : String :=
  ⟨s.data.filter jsDigit⟩


/-!
## Date parsing and `moment` formatting

The server parses the wire date with `moment(appointment.date, 'YYYY-DD-MM')`
and renders the SMS date with `format('dddd MMMM Do[,] YYYY')` and the
stored date with `format('YYYY-DD-MM')`.  We embed the parse as an exact
three-field split (fallible, hence `Option`) and the format tokens as
arithmetic on the date components; the weekday comes from Zeller's
congruence, which is what a calendar library computes for Gregorian
dates. -/

/-- Numeric value of a digit character. -/
def digitVal (c : Char) : Nat := c.toNat - 48

/-- Parse a non-empty all-digit character list as a decimal numeral. -/
def charsToNat? (cs : List Char) : Option Nat :=
  if cs ≠ [] && cs.all jsDigit then
    some (cs.foldl (fun a c => a * 10 + digitVal c) 0)
  else none

/-- Split a character list on a separator character. -/
def splitOnChar (sep : Char) : List Char → List (List Char)
  | [] => [[]]
  | c :: rest =>
      let r := splitOnChar sep rest
      if c == sep then [] :: r
      else
        match r with
        | [] => [[c]]
        | g :: gs => (c :: g) :: gs

/-- `moment(s, 'YYYY-DD-MM')`: parse a wire date string into its year,
day and month fields (in that order).  Strings that are not three
dash-separated numerals are invalid. -/
def parseYDM (s : String) : Option Date :=
  match splitOnChar '-' s.data with
  | [y, d, m] =>
      match charsToNat? y, charsToNat? d, charsToNat? m with
      | some year, some day, some month => some ⟨year, month, day⟩
      | _, _, _ => none
  | _ => none

/-- Day of week by Zeller's congruence (Gregorian): 0 = Saturday,
1 = Sunday, …, 6 = Friday. -/
def zellerIndex (dt : Date) : Nat :=
  let y := if dt.month < 3 then dt.year - 1 else dt.year
  let m := if dt.month < 3 then dt.month + 12 else dt.month
  let k := y % 100
  let j := y / 100
  (dt.day + (13 * (m + 1)) / 5 + k + k / 4 + j / 4 + 5 * j) % 7

/-- `moment.format('dddd')`: the English weekday name. -/
def weekdayName (dt : Date) : String :=
  match zellerIndex dt with
  | 0 => "Saturday"
  | 1 => "Sunday"
  | 2 => "Monday"
  | 3 => "Tuesday"
  | 4 => "Wednesday"
  | 5 => "Thursday"
  | _ => "Friday"

/-- `moment.format('MMMM')`: the English month name. -/
def monthName (m : Nat) : String :=
  match m with
  | 1 => "January"
  | 2 => "February"
  | 3 => "March"
  | 4 => "April"
  | 5 => "May"
  | 6 => "June"
  | 7 => "July"
  | 8 => "August"
  | 9 => "September"
  | 10 => "October"
  | 11 => "November"
  | _ => "December"

/-- `moment.format('Do')`: ordinal day of month ("1st", "16th", …). -/
def ordinal (n : Nat) : String :=
  let suffix :=
    if n % 100 == 11 || n % 100 == 12 || n % 100 == 13 then "th"
    else if n % 10 == 1 then "st"
    else if n % 10 == 2 then "nd"
    else if n % 10 == 3 then "rd"
    else "th"
  toString n ++ suffix

/-- `moment.format('dddd MMMM Do[,] YYYY')` on a start-of-day date, as the
SMS body uses it. -/
def formatLongDate (dt : Date) : String :=
  weekdayName dt ++ " " ++ monthName dt.month ++ " " ++ ordinal dt.day ++
    ", " ++ pad4 dt.year

/-- `moment.format('h:mm a')` on a whole-hour time (minutes are 0: the
server starts from `startOf('day')` and adds whole hours). -/
def formatHmmA (hour : Nat) : String :=
  let h12 := hour % 12
  let h := if h12 == 0 then 12 else h12
  toString h ++ ":00 " ++ hourMeridiem (hour % 24)

/-!
## Client submission and the server's appointment handler
-/

/-- The JSON body `handleSubmit` posts (App.js 125–139). -/
structure WireAppointment where
  date : String
  slot : Fin 8
  name : String
  email : String
  phone : String
deriving DecidableEq, Repr

/-- `handleSubmit`'s appointment object: the selected calendar date in
wire format, the slot, `firstName + ' ' + lastName`, and the stored email
and phone exactly as validated (the phone is NOT normalized here — that
happens on the server). -/
def clientSubmit (appointmentDate : Date) (slot : Fin 8)
    (firstName lastName email phone : String) : WireAppointment :=
  { date := formatYDM appointmentDate
    slot := slot
    name := firstName ++ " " ++ lastName
    email := email
    phone := phone }

/-- The object written to the store by `POST /api/appointments`
(app.js 49–74): the title is the appointment's name, and the metafields
carry the re-formatted date, the slot, the email and the normalized
phone. -/
structure StoredObject where
  title : String
  date : String
  slot : Fin 8
  email : String
  phone : String
deriving DecidableEq, Repr

/-- Everything observable that one run of the `POST /api/appointments`
handler produces. -/
structure PostOutcome where
  smsTo : String
  smsBody : String
  smsLoggedOk : Bool
  stored : StoredObject
  response : String
deriving DecidableEq, Repr

/-- The `POST /api/appointments` handler (app.js 36–77).

* `appointment.phone = appointment.phone.replace(/\D/g, '')`;
* `date = moment(appointment.date, 'YYYY-DD-MM').startOf('day')`,
  `time = date.hour(9).add(slot, 'hours')` — for slots 0–7 the hour stays
  within the same day, so `date`'s calendar day is unchanged by the
  in-place mutation;
* the SMS is sent to `'+1' + phone` with the template body; its callback
  only logs the result (`smsOk` here), and nothing reads it;
* the store object is posted unconditionally, and the HTTP response is
  `'succes'` or `'error '` depending only on that store write (`storeOk`).

The model is `Option`-valued on the date parse; the spec's scenarios only
exercise parseable wire dates. -/
def handleAppointmentPost (a : WireAppointment) (smsOk storeOk : Bool) :
    Option PostOutcome :=
  let phone := normalizePhone a.phone
  match parseYDM a.date with
  | none => none
  | some date =>
      let hour := 9 + a.slot.val
      some
        { smsTo := "+1" ++ phone
          smsBody := a.name ++
            ", this message is to confirm your appointment at " ++
            formatHmmA hour ++ " on " ++ formatLongDate date ++ "."
          smsLoggedOk := smsOk
          stored :=
            { title := a.name
              date := formatYDM date
              slot := a.slot
              email := a.email
              phone := phone }
          response := if storeOk then "succes" else "error " }

/-!
## Contact-field state

`validateEmail` / `validatePhone` are `onChange` handlers: on a passing
input they store the value and set the validity flag; on a failing input
they only clear the flag, leaving the stored value untouched
(App.js 141–149).  `handleSubmit` later reads the stored values, not the
text fields' current contents. -/

/-- The slice of component state the two validators touch.  `email` /
`phone` start out absent (JS `undefined`); the validity flags start
`true`. -/
structure ContactState where
  email : Option String
  validEmail : Bool
  phone : Option String
  validPhone : Bool
deriving DecidableEq, Repr

/-- The initial component state (App.js 38–50): no stored email or phone,
both flags `true`. -/
def initialContactState : ContactState :=
  { email := none, validEmail := true, phone := none, validPhone := true }

/-- `validateEmail(email)` (App.js 141–144). -/
def validateEmailStep (st : ContactState) (input : String) : ContactState :=
  if validateEmailRegex input then
    { st with email := some input, validEmail := true }
  else
    { st with validEmail := false }

/-- `validatePhone(phoneNumber)` (App.js 146–149). -/
def validatePhoneStep (st : ContactState) (input : String) : ContactState :=
  if validatePhoneRegex input then
    { st with phone := some input, validPhone := true }
  else
    { st with validPhone := false }

/-- One keystroke-driven `onChange` event on the email or phone field. -/
inductive ContactEvent where
  | emailInput (s : String) : ContactEvent
  | phoneInput (s : String) : ContactEvent
deriving DecidableEq, Repr

/-- Dispatch one contact-field event. -/
def applyContactEvent (st : ContactState) : ContactEvent → ContactState
  | .emailInput s => validateEmailStep st s
  | .phoneInput s => validatePhoneStep st s

/-- The contact state after a whole session of field events. -/
def runContactEvents (es : List ContactEvent) : ContactState :=
  es.foldl applyContactEvent initialContactState

/-- The most recent email input that passed the regex, if any — what the
claim says the stored email must be. -/
def lastPassingEmail (es : List ContactEvent) : Option String :=
  es.foldl
    (fun acc e =>
      match e with
      | .emailInput s => if validateEmailRegex s then some s else acc
      | .phoneInput _ => acc)
    none

/-- The most recent phone input that passed the regex, if any. -/
def lastPassingPhone (es : List ContactEvent) : Option String :=
  es.foldl
    (fun acc e =>
      match e with
      | .emailInput _ => acc
      | .phoneInput s => if validatePhoneRegex s then some s else acc)
    none

/-!
## Spec-side definitions

These two definitions transcribe the SPEC's words (section 4.3, and
claim C1) rather than the source, so that the source-derived query can be
compared against them. -/

/-- Modelled from the spec's words (claim C1): a slot is "taken" when the
day's entry is `FullyBooked`, or the entry is a bitmap whose position for
the slot is `true`; an absent day takes no slot. -/
def takenSpec (sched : Schedule) (day : String) (slot : Fin 8) : Bool :=
  match findEntry sched day with
  | some .fullyBooked => true
  | some (.bitmap bits) => bits.getD slot.val false
  | none => false

/-- Modelled from the spec's words (claim C1): the slot's meridiem matches
the active AM/PM filter (0 = AM, otherwise PM, as the component stores
it). -/
def meridiemMatches (filter : Nat) (slot : Fin 8) : Bool :=
  if filter ≠ 0 then hourMeridiem (slotStartHour slot) == "pm"
  else hourMeridiem (slotStartHour slot) == "am"

/-- Modelled from the spec's words (claim C1): selectable iff the meridiem
matches and the slot is not taken. -/
def selectableSpec (sched : Schedule) (day : String) (slot : Fin 8)
    (filter : Nat) : Bool :=
  meridiemMatches filter slot && !(takenSpec sched day slot)

/-- The slot-level "taken" notion the code actually implements: only a
bitmap entry with the slot bit set marks a slot taken (a `FullyBooked`
entry, like an absent one, marks none — such days are excluded at the
day level by `checkDisableDate` instead). -/
def takenByBitmap (sched : Schedule) (day : String) (slot : Fin 8) : Bool :=
  match findEntry sched day with
  | some (.bitmap bits) => bits.getD slot.val false
  | _ => false


/-!
## Helper lemmas: bitmaps and the schedule association list
-/

theorem getD_true_lt (bits : List Bool) (i : Nat)
    (h : bits.getD i false = true) : i < bits.length := by
  induction bits generalizing i with
  | nil => simp [List.getD] at h
  | cons b bs ih =>
      cases i with
      | zero => simp
      | succ n =>
          simp only [List.getD_cons_succ] at h
          simpa using ih n h

theorem getD_set_true_self (bits : List Bool) (i : Nat)
    (h : i < bits.length) : (bits.set i true).getD i false = true := by
  induction bits generalizing i with
  | nil => simp at h
  | cons b bs ih =>
      cases i with
      | zero => simp
      | succ n =>
          simp only [List.set_cons_succ, List.getD_cons_succ]
          exact ih n (by simpa using h)

theorem set_true_of_getD (bits : List Bool) (i : Nat)
    (h : bits.getD i false = true) : bits.set i true = bits := by
  induction bits generalizing i with
  | nil => simp [List.getD] at h
  | cons b bs ih =>
      cases i with
      | zero => simp_all
      | succ n =>
          simp only [List.getD_cons_succ] at h
          simp [ih n h]

theorem getD_set_true_mono (bits : List Bool) (i j : Nat)
    (h : bits.getD i false = true) : (bits.set j true).getD i false = true := by
  induction bits generalizing i j with
  | nil => simp [List.getD] at h
  | cons b bs ih =>
      cases j with
      | zero =>
          cases i with
          | zero => simp
          | succ n => simpa using h
      | succ m =>
          cases i with
          | zero => simpa using h
          | succ n =>
              simp only [List.set_cons_succ, List.getD_cons_succ] at *
              exact ih n m h

theorem all_set_true (bits : List Bool) (i : Nat)
    (h : bits.all (· == true) = true) : (bits.set i true).all (· == true) = true := by
  induction bits generalizing i with
  | nil => simp
  | cons b bs ih =>
      cases i with
      | zero => simp_all
      | succ n => simp_all

theorem all_of_getD (bits : List Bool)
    (h : ∀ i, i < bits.length → bits.getD i false = true) :
    bits.all (· == true) = true := by
  induction bits with
  | nil => simp
  | cons b bs ih =>
      have hb := h 0 (by simp)
      simp only [List.getD_cons_zero] at hb
      have hrest : ∀ i, i < bs.length → bs.getD i false = true := by
        intro i hi
        have := h (i + 1) (by simpa using Nat.succ_lt_succ hi)
        simpa using this
      simp only [List.all_cons, hb, Bool.and_eq_true]
      exact ⟨by simp, ih hrest⟩

theorem findEntry_setEntry (sched : Schedule) (d k : String) (v : ScheduleEntry) :
    findEntry (setEntry sched d v) k = if k = d then some v else findEntry sched k := by
  induction sched with
  | nil =>
      by_cases h : k = d
      · subst h; simp [setEntry, findEntry]
      · simp [setEntry, findEntry, h, Ne.symm h]
  | cons p rest ih =>
      obtain ⟨k0, e0⟩ := p
      by_cases h0 : k0 = d
      · subst h0
        by_cases h1 : k = k0
        · subst h1; simp [setEntry, findEntry]
        · simp [setEntry, findEntry, h1, Ne.symm h1]
      · by_cases h1 : k0 = k
        · subst h1
          simp [setEntry, findEntry, h0, Ne.symm h0]
        · simp [setEntry, findEntry, h0, h1, ih]

theorem setEntry_self (sched : Schedule) (d : String) (v : ScheduleEntry)
    (h : findEntry sched d = some v) : setEntry sched d v = sched := by
  induction sched with
  | nil => simp [findEntry] at h
  | cons p rest ih =>
      obtain ⟨k0, e0⟩ := p
      by_cases h0 : k0 = d
      · subst h0
        simp [findEntry] at h
        simp [setEntry, h]
      · simp only [findEntry, h0, if_false] at h
        simp [setEntry, h0, ih h]

theorem findEntry_map_collapse (sched : Schedule) (d : String) :
    findEntry (sched.map (fun p => (p.1, collapseEntry p.2))) d =
      (findEntry sched d).map collapseEntry := by
  induction sched with
  | nil => simp [findEntry]
  | cons p rest ih =>
      obtain ⟨k0, e0⟩ := p
      by_cases h0 : k0 = d <;> simp [findEntry, h0, ih]

/-!
## Helper lemmas: one builder step
-/

theorem applyRecord_of_none (sched : Schedule) (r : BookingRecord)
    (h : findEntry sched r.date = none) :
    applyRecord sched r =
      setEntry (setEntry sched r.date (.bitmap (List.replicate 8 false))) r.date
        (.bitmap ((List.replicate 8 false).set r.slot.val true)) := by
  unfold applyRecord
  simp only [h, Option.isNone_none, if_pos, findEntry_setEntry, if_pos rfl]

theorem applyRecord_of_full (sched : Schedule) (r : BookingRecord)
    (h : findEntry sched r.date = some .fullyBooked) :
    applyRecord sched r = sched := by
  unfold applyRecord
  simp only [h, Option.isNone_some, Bool.false_eq_true, if_false]

theorem applyRecord_of_bitmap (sched : Schedule) (r : BookingRecord)
    (bits : List Bool) (h : findEntry sched r.date = some (.bitmap bits)) :
    applyRecord sched r = setEntry sched r.date (.bitmap (bits.set r.slot.val true)) := by
  unfold applyRecord
  simp only [h, Option.isNone_some, Bool.false_eq_true, if_false]

/-- Every bitmap stored in a schedule has exactly 8 slots. -/
def bitmapsLen8 (sched : Schedule) : Prop :=
  ∀ d bits, findEntry sched d = some (.bitmap bits) → bits.length = 8

/-- A slot counts as occupied at the pre-collapse level: the day is the
boolean `true`, or its bitmap has the slot bit set. -/
def takenOrFull (sched : Schedule) (d : String) (s : Nat) : Prop :=
  findEntry sched d = some .fullyBooked ∨
    ∃ bits, findEntry sched d = some (.bitmap bits) ∧ bits.getD s false = true

theorem bitmapsLen8_apply (sched : Schedule) (r : BookingRecord)
    (h : bitmapsLen8 sched) : bitmapsLen8 (applyRecord sched r) := by
  intro d bits hfind
  rcases hcase : findEntry sched r.date with _ | e
  · rw [applyRecord_of_none sched r hcase, findEntry_setEntry] at hfind
    by_cases hd : d = r.date
    · rw [if_pos hd] at hfind
      cases hfind
      simp
    · rw [if_neg hd, findEntry_setEntry, if_neg hd] at hfind
      exact h d bits hfind
  · cases e with
    | fullyBooked =>
        rw [applyRecord_of_full sched r hcase] at hfind
        exact h d bits hfind
    | bitmap bits0 =>
        rw [applyRecord_of_bitmap sched r bits0 hcase, findEntry_setEntry] at hfind
        by_cases hd : d = r.date
        · rw [if_pos hd] at hfind
          cases hfind
          simpa using h r.date bits0 hcase
        · rw [if_neg hd] at hfind
          exact h d bits hfind

theorem full_apply_mono (sched : Schedule) (r : BookingRecord) (d : String)
    (h : findEntry sched d = some .fullyBooked) :
    findEntry (applyRecord sched r) d = some .fullyBooked := by
  rcases hcase : findEntry sched r.date with _ | e
  · have hd : d ≠ r.date := fun he => by rw [he, hcase] at h; cases h
    rw [applyRecord_of_none sched r hcase, findEntry_setEntry, if_neg hd,
      findEntry_setEntry, if_neg hd]
    exact h
  · cases e with
    | fullyBooked => rw [applyRecord_of_full sched r hcase]; exact h
    | bitmap bits0 =>
        have hd : d ≠ r.date := fun he => by
          rw [he, hcase] at h; cases h
        rw [applyRecord_of_bitmap sched r bits0 hcase, findEntry_setEntry, if_neg hd]
        exact h

theorem bit_apply_mono (sched : Schedule) (r : BookingRecord) (d : String)
    (s : Nat) (bits : List Bool) (h : findEntry sched d = some (.bitmap bits))
    (hb : bits.getD s false = true) :
    ∃ bits2, findEntry (applyRecord sched r) d = some (.bitmap bits2) ∧
      bits2.getD s false = true := by
  rcases hcase : findEntry sched r.date with _ | e
  · have hd : d ≠ r.date := fun he => by rw [he, hcase] at h; cases h
    refine ⟨bits, ?_, hb⟩
    rw [applyRecord_of_none sched r hcase, findEntry_setEntry, if_neg hd,
      findEntry_setEntry, if_neg hd]
    exact h
  · cases e with
    | fullyBooked =>
        exact ⟨bits, by rw [applyRecord_of_full sched r hcase]; exact h, hb⟩
    | bitmap bits0 =>
        by_cases hd : d = r.date
        · subst hd
          rw [h] at hcase
          cases hcase
          refine ⟨bits.set r.slot.val true, ?_, getD_set_true_mono bits s r.slot.val hb⟩
          rw [applyRecord_of_bitmap sched r bits h, findEntry_setEntry, if_pos rfl]
        · refine ⟨bits, ?_, hb⟩
          rw [applyRecord_of_bitmap sched r bits0 hcase, findEntry_setEntry, if_neg hd]
          exact h

theorem taken_apply_mono (sched : Schedule) (r : BookingRecord) (d : String)
    (s : Nat) (h : takenOrFull sched d s) : takenOrFull (applyRecord sched r) d s := by
  rcases h with h | ⟨bits, h, hb⟩
  · exact Or.inl (full_apply_mono sched r d h)
  · exact Or.inr (bit_apply_mono sched r d s bits h hb)

theorem apply_self_taken (sched : Schedule) (r : BookingRecord)
    (hlen : bitmapsLen8 sched) :
    takenOrFull (applyRecord sched r) r.date r.slot.val := by
  rcases hcase : findEntry sched r.date with _ | e
  · refine Or.inr ⟨(List.replicate 8 false).set r.slot.val true, ?_, ?_⟩
    · rw [applyRecord_of_none sched r hcase, findEntry_setEntry, if_pos rfl]
    · exact getD_set_true_self _ _ (by simp)
  · cases e with
    | fullyBooked =>
        exact Or.inl (by rw [applyRecord_of_full sched r hcase]; exact hcase)
    | bitmap bits0 =>
        refine Or.inr ⟨bits0.set r.slot.val true, ?_, ?_⟩
        · rw [applyRecord_of_bitmap sched r bits0 hcase, findEntry_setEntry, if_pos rfl]
        · exact getD_set_true_self _ _ (by rw [hlen r.date bits0 hcase]; exact r.slot.isLt)

/-!
## Helper lemmas: the whole fold and the collapse pass
-/

theorem bitmapsLen8_foldl (rs : List BookingRecord) (sched : Schedule)
    (h : bitmapsLen8 sched) : bitmapsLen8 (rs.foldl applyRecord sched) := by
  induction rs generalizing sched with
  | nil => exact h
  | cons r rest ih => exact ih (applyRecord sched r) (bitmapsLen8_apply sched r h)

theorem full_foldl_mono (rs : List BookingRecord) (sched : Schedule) (d : String)
    (h : findEntry sched d = some .fullyBooked) :
    findEntry (rs.foldl applyRecord sched) d = some .fullyBooked := by
  induction rs generalizing sched with
  | nil => exact h
  | cons r rest ih => exact ih (applyRecord sched r) (full_apply_mono sched r d h)

theorem taken_foldl_mono (rs : List BookingRecord) (sched : Schedule) (d : String)
    (s : Nat) (h : takenOrFull sched d s) : takenOrFull (rs.foldl applyRecord sched) d s := by
  induction rs generalizing sched with
  | nil => exact h
  | cons r rest ih => exact ih (applyRecord sched r) (taken_apply_mono sched r d s h)

theorem mem_foldl_taken (rs : List BookingRecord) (sched : Schedule)
    (r : BookingRecord) (hmem : r ∈ rs) (hlen : bitmapsLen8 sched) :
    takenOrFull (rs.foldl applyRecord sched) r.date r.slot.val := by
  induction rs generalizing sched with
  | nil => cases hmem
  | cons a rest ih =>
      rcases List.mem_cons.mp hmem with heq | hmem2
      · subst heq
        exact taken_foldl_mono rest (applyRecord sched r) r.date r.slot.val
          (apply_self_taken sched r hlen)
      · exact ih (applyRecord sched a) hmem2 (bitmapsLen8_apply sched a hlen)

theorem apply_absorb (sched : Schedule) (r : BookingRecord)
    (h : takenOrFull sched r.date r.slot.val) : applyRecord sched r = sched := by
  rcases h with h | ⟨bits, h, hb⟩
  · exact applyRecord_of_full sched r h
  · rw [applyRecord_of_bitmap sched r bits h, set_true_of_getD bits r.slot.val hb]
    exact setEntry_self sched r.date (.bitmap bits) h

theorem foldl_absorb (l : List BookingRecord) (sched : Schedule)
    (h : ∀ r ∈ l, applyRecord sched r = sched) : l.foldl applyRecord sched = sched := by
  induction l with
  | nil => rfl
  | cons a rest ih =>
      have ha := h a (List.mem_cons_self a rest)
      rw [List.foldl_cons, ha]
      exact ih (fun r hr => h r (List.mem_cons_of_mem a hr))

/-- The seed schedule of `handleFetch`. -/
def initSched (today : Date) : Schedule := [(formatYDM today, .fullyBooked)]

theorem bitmapsLen8_init (today : Date) : bitmapsLen8 (initSched today) := by
  intro d bits h
  simp only [initSched, findEntry] at h
  by_cases hd : formatYDM today = d
  · rw [if_pos hd] at h; cases h
  · rw [if_neg hd] at h; cases h

/-- The empty-list branch of `handleFetch` coincides with folding an empty
list, so `build` is always the collapse of the fold. -/
theorem build_eq_foldl (rs : List BookingRecord) (today : Date) :
    build rs today =
      (rs.foldl applyRecord (initSched today)).map (fun p => (p.1, collapseEntry p.2)) := by
  cases rs with
  | nil => rfl
  | cons a rest => rfl

theorem findEntry_build (rs : List BookingRecord) (today : Date) (d : String) :
    findEntry (build rs today) d =
      (findEntry (rs.foldl applyRecord (initSched today)) d).map collapseEntry := by
  rw [build_eq_foldl, findEntry_map_collapse]

theorem findEntry_init_today (today : Date) :
    findEntry (initSched today) (formatYDM today) = some .fullyBooked := by
  simp [initSched, findEntry]

/-- Today's seeded entry survives any record list: no record ever
downgrades the boolean `true`, and the collapse pass keeps it. -/
theorem build_today_full (rs : List BookingRecord) (today : Date) :
    findEntry (build rs today) (formatYDM today) = some .fullyBooked := by
  rw [findEntry_build,
    full_foldl_mono rs (initSched today) (formatYDM today) (findEntry_init_today today)]
  rfl

/-!
## Claim theorems
-/

/-- C6: the phone validator accepts "(888) 888-8888" and "18888888888",
rejects "12345", and phone normalization strips every non-digit, so that
normalizePhone "(888) 888-8888" = "8888888888". -/
theorem c6_phone_validator_and_normalization :
    validatePhoneRegex "(888) 888-8888" = true ∧
    validatePhoneRegex "18888888888" = true ∧
    validatePhoneRegex "12345" = false ∧
    normalizePhone "(888) 888-8888" = "8888888888" := by
  refine ⟨by decide, by decide, by decide, by decide⟩

/-- C7: the email validator accepts "a@b.com" and rejects "a@b" and
"not-an-email". -/
theorem c7_email_validator :
    validateEmailRegex "a@b.com" = true ∧
    validateEmailRegex "a@b" = false ∧
    validateEmailRegex "not-an-email" = false := by
  refine ⟨by decide, by decide, by decide⟩

/-- C1 (counterexample): on a day whose entry is `FullyBooked` the code's
slot query still offers the slot — `schedule[day][slot]` on the boolean
`true` is `undefined`, hence falsy — while the claim's notion of "taken"
(`takenSpec`/`selectableSpec`, transcribed from the spec) disables it.
Slot 0 is an AM slot and the filter is AM, so only the takenness differs. -/
theorem c1_counterexample :
    isSlotSelectable [("2024-16-06", .fullyBooked)] "2024-16-06" 0 0 = true ∧
    takenSpec [("2024-16-06", .fullyBooked)] "2024-16-06" 0 = true ∧
    selectableSpec [("2024-16-06", .fullyBooked)] "2024-16-06" 0 0 = false := by
  refine ⟨by decide, by decide, by decide⟩

/-- C1 (amended): for every schedule, day, slot 0–7, and meridiem filter,
a slot is selectable iff its meridiem matches the filter and the slot is
not taken, where a slot counts as taken only when the day's entry is a
bitmap whose position for the slot is true; an absent day marks no slot
taken, and a `FullyBooked` entry also marks no slot taken at this level
(such days are excluded at the day level by `checkDisableDate`, not here). -/
theorem c1_slot_query_amended (sched : Schedule) (day : String) (slot : Fin 8)
    (filter : Nat) :
    isSlotSelectable sched day slot filter =
      (meridiemMatches filter slot && !(takenByBitmap sched day slot)) ∧
    (findEntry sched day = none → takenByBitmap sched day slot = false) ∧
    (findEntry sched day = some .fullyBooked → takenByBitmap sched day slot = false) := by
  have hmer : (!meridiemDisabled filter slot) = meridiemMatches filter slot := by
    unfold meridiemDisabled meridiemMatches hourMeridiem
    by_cases h : slotStartHour slot < 12 <;> by_cases hf : filter ≠ 0 <;>
      simp [h, hf]
  refine ⟨?_, ?_, ?_⟩
  · unfold isSlotSelectable
    rw [Bool.not_or, Bool.and_comm, hmer]
    have hsch : scheduleDisabled sched day slot = takenByBitmap sched day slot := by
      unfold scheduleDisabled takenByBitmap
      rcases findEntry sched day with _ | e
      · rfl
      · cases e <;> rfl
    rw [hsch]
  · intro h; unfold takenByBitmap; rw [h]
  · intro h; unfold takenByBitmap; rw [h]

/-- C1 (amended, witness): the amended equivalence evaluated on a concrete
partially-booked schedule, with both hypotheses about absent and
fully-booked days discharged on concrete schedules. -/
theorem c1_slot_query_amended_witness :
    (isSlotSelectable [("2024-16-06", .bitmap [true, false, false, false, false, false, false, false])]
        "2024-16-06" 0 0 =
      (meridiemMatches 0 0 &&
        !(takenByBitmap [("2024-16-06", .bitmap [true, false, false, false, false, false, false, false])]
          "2024-16-06" 0))) ∧
    takenByBitmap [] "2024-16-06" 0 = false ∧
    takenByBitmap [("2024-16-06", .fullyBooked)] "2024-16-06" 0 = false := by
  refine ⟨(c1_slot_query_amended
      [("2024-16-06", .bitmap [true, false, false, false, false, false, false, false])]
      "2024-16-06" 0 0).1,
    (c1_slot_query_amended [] "2024-16-06" 0 0).2.1 (by decide),
    (c1_slot_query_amended [("2024-16-06", .fullyBooked)] "2024-16-06" 0 0).2.2 (by decide)⟩

/-- C3 (counterexample): with an empty store and today = June 15 2024,
June 14 2024 is a day other than today, yet the day query rejects it
(`checkDisableDate` also disables every day strictly before today), so
"every day other than today is selectable" fails on the code. -/
theorem c3_counterexample :
    (⟨2024, 6, 14⟩ : Date) ≠ (⟨2024, 6, 15⟩ : Date) ∧
    isDaySelectable (build [] ⟨2024, 6, 15⟩) ⟨2024, 6, 15⟩ ⟨2024, 6, 14⟩ = false := by
  refine ⟨by decide, by decide⟩

/-- C3 (amended): building from an empty record list yields exactly
`{ today : FullyBooked }`; today is not selectable, and every day other
than today (distinct in the wire format) that is not strictly before
today is selectable. -/
theorem c3_empty_build (today day : Date)
    (hne : formatYDM day ≠ formatYDM today) (hbefore : dateBefore day today = false) :
    build [] today = [(formatYDM today, .fullyBooked)] ∧
    isDaySelectable (build [] today) today today = false ∧
    isDaySelectable (build [] today) today day = true := by
  have hbuild : build [] today = [(formatYDM today, .fullyBooked)] := rfl
  refine ⟨hbuild, ?_, ?_⟩
  · unfold isDaySelectable checkDisableDate
    rw [hbuild]
    simp [findEntry]
  · unfold isDaySelectable checkDisableDate
    rw [hbuild]
    have : findEntry [(formatYDM today, .fullyBooked)] (formatYDM day) = none := by
      simp [findEntry, Ne.symm hne]
    rw [this, hbefore]
    rfl

/-- C3 (amended, witness): the amended statement on today = June 15 2024
and the later day June 16 2024. -/
theorem c3_empty_build_witness :
    build [] (⟨2024, 6, 15⟩ : Date) = [("2024-15-06", .fullyBooked)] ∧
    isDaySelectable (build [] ⟨2024, 6, 15⟩) ⟨2024, 6, 15⟩ ⟨2024, 6, 15⟩ = false ∧
    isDaySelectable (build [] ⟨2024, 6, 15⟩) ⟨2024, 6, 15⟩ ⟨2024, 6, 16⟩ = true := by
  have h := c3_empty_build ⟨2024, 6, 15⟩ ⟨2024, 6, 16⟩ (by decide) (by decide)
  exact ⟨by decide, h.2.1, h.2.2⟩

/-- C2: end-to-end scenario.  With an empty store and today = "2024-15-06"
(June 15 2024), the day "2024-16-06" is selectable and its slot 2 (an AM
slot, 11:00–12:00) is selectable under the AM filter; the contact inputs
pass both validators; `handleSubmit` posts
`{ date: "2024-16-06", slot: 2, name: "Jane Doe", email, phone }`; the
server stores
`{ title: "Jane Doe", date: "2024-16-06", slot: 2, email, phone: "5551234567" }`
with every non-digit stripped from the phone; and the SMS body contains
"11:00 am" and "Sunday June 16th, 2024". -/
theorem c2_end_to_end :
    isDaySelectable (build [] ⟨2024, 6, 15⟩) ⟨2024, 6, 15⟩ ⟨2024, 6, 16⟩ = true ∧
    isSlotSelectable (build [] ⟨2024, 6, 15⟩) "2024-16-06" 2 0 = true ∧
    validateEmailRegex "jane@doe.com" = true ∧
    validatePhoneRegex "(555) 123-4567" = true ∧
    clientSubmit ⟨2024, 6, 16⟩ 2 "Jane" "Doe" "jane@doe.com" "(555) 123-4567" =
      { date := "2024-16-06", slot := 2, name := "Jane Doe",
        email := "jane@doe.com", phone := "(555) 123-4567" } ∧
    handleAppointmentPost
        (clientSubmit ⟨2024, 6, 16⟩ 2 "Jane" "Doe" "jane@doe.com" "(555) 123-4567")
        true true =
      some
        { smsTo := "+15551234567"
          smsBody := "Jane Doe, this message is to confirm your appointment at 11:00 am on Sunday June 16th, 2024."
          smsLoggedOk := true
          stored :=
            { title := "Jane Doe", date := "2024-16-06", slot := 2,
              email := "jane@doe.com", phone := "5551234567" }
          response := "succes" } ∧
    (∃ pre post : String,
      (handleAppointmentPost
          (clientSubmit ⟨2024, 6, 16⟩ 2 "Jane" "Doe" "jane@doe.com" "(555) 123-4567")
          true true).map PostOutcome.smsBody = some (pre ++ "11:00 am" ++ post)) ∧
    (∃ pre post : String,
      (handleAppointmentPost
          (clientSubmit ⟨2024, 6, 16⟩ 2 "Jane" "Doe" "jane@doe.com" "(555) 123-4567")
          true true).map PostOutcome.smsBody = some (pre ++ "Sunday June 16th, 2024" ++ post)) := by
  refine ⟨by decide, by decide, by decide, by decide, by decide, by decide, ?_, ?_⟩
  · exact ⟨"Jane Doe, this message is to confirm your appointment at ",
      " on Sunday June 16th, 2024.", by decide⟩
  · exact ⟨"Jane Doe, this message is to confirm your appointment at 11:00 am on ",
      ".", by decide⟩

/-- C8: in the `POST /api/appointments` handler the SMS send and the store
write are independent and non-transactional — the stored object and the
HTTP response do not depend on the SMS result, and the response is the
success body exactly when the store write succeeds. -/
theorem c8_sms_store_independent (a : WireAppointment) (smsOk smsOk2 storeOk : Bool) :
    (handleAppointmentPost a smsOk storeOk).map PostOutcome.stored =
      (handleAppointmentPost a smsOk2 storeOk).map PostOutcome.stored ∧
    (handleAppointmentPost a smsOk storeOk).map PostOutcome.response =
      (handleAppointmentPost a smsOk2 storeOk).map PostOutcome.response ∧
    (∀ o : PostOutcome, handleAppointmentPost a smsOk storeOk = some o →
      (o.response = "succes" ↔ storeOk = true)) := by
  cases hp : parseYDM a.date with
  | none =>
      refine ⟨by simp [handleAppointmentPost, hp], by simp [handleAppointmentPost, hp], ?_⟩
      intro o h
      simp [handleAppointmentPost, hp] at h
  | some d =>
      refine ⟨by simp [handleAppointmentPost, hp], by simp [handleAppointmentPost, hp], ?_⟩
      intro o h
      simp only [handleAppointmentPost, hp, Option.some.injEq] at h
      subst h
      cases storeOk <;> simp

/-- C8 (witness): the independence statement applied to the concrete Jane
Doe submission, with the success-response hypothesis discharged on the
concrete outcome. -/
theorem c8_sms_store_independent_witness :
    ({ smsTo := "+15551234567"
       smsBody := "Jane Doe, this message is to confirm your appointment at 11:00 am on Sunday June 16th, 2024."
       smsLoggedOk := true
       stored :=
         { title := "Jane Doe", date := "2024-16-06", slot := 2,
           email := "jane@doe.com", phone := "5551234567" }
       response := "succes" } : PostOutcome).response = "succes" ↔ true = true :=
  (c8_sms_store_independent
      ⟨"2024-16-06", 2, "Jane Doe", "jane@doe.com", "(555) 123-4567"⟩
      true false true).2.2 _ (by decide)

theorem email_foldl (es : List ContactEvent) (st : ContactState) :
    (es.foldl applyContactEvent st).email =
      es.foldl
        (fun acc e =>
          match e with
          | .emailInput s => if validateEmailRegex s then some s else acc
          | .phoneInput _ => acc)
        st.email := by
  induction es generalizing st with
  | nil => rfl
  | cons e rest ih =>
      rw [List.foldl_cons, List.foldl_cons, ih]
      congr 1
      cases e with
      | emailInput s =>
          simp only [applyContactEvent, validateEmailStep]
          by_cases h : validateEmailRegex s <;> simp [h]
      | phoneInput s =>
          simp only [applyContactEvent, validatePhoneStep]
          by_cases h : validatePhoneRegex s <;> simp [h]

theorem phone_foldl (es : List ContactEvent) (st : ContactState) :
    (es.foldl applyContactEvent st).phone =
      es.foldl
        (fun acc e =>
          match e with
          | .emailInput _ => acc
          | .phoneInput s => if validatePhoneRegex s then some s else acc)
        st.phone := by
  induction es generalizing st with
  | nil => rfl
  | cons e rest ih =>
      rw [List.foldl_cons, List.foldl_cons, ih]
      congr 1
      cases e with
      | emailInput s =>
          simp only [applyContactEvent, validateEmailStep]
          by_cases h : validateEmailRegex s <;> simp [h]
      | phoneInput s =>
          simp only [applyContactEvent, validatePhoneStep]
          by_cases h : validatePhoneRegex s <;> simp [h]

theorem emailAcc_valid (es : List ContactEvent) :
    ∀ acc : Option String, (∀ s, acc = some s → validateEmailRegex s = true) →
      ∀ s,
        es.foldl
          (fun acc e =>
            match e with
            | .emailInput s => if validateEmailRegex s then some s else acc
            | .phoneInput _ => acc)
          acc = some s →
        validateEmailRegex s = true := by
  induction es with
  | nil => intro acc h s hs; exact h s hs
  | cons e rest ih =>
      intro acc h s hs
      rw [List.foldl_cons] at hs
      refine ih _ ?_ s hs
      cases e with
      | emailInput t =>
          by_cases ht : validateEmailRegex t
          · intro u hu
            simp only [ht, if_true, Option.some.injEq] at hu
            exact hu ▸ ht
          · simpa [ht] using h
      | phoneInput t => exact h

theorem phoneAcc_valid (es : List ContactEvent) :
    ∀ acc : Option String, (∀ s, acc = some s → validatePhoneRegex s = true) →
      ∀ s,
        es.foldl
          (fun acc e =>
            match e with
            | .emailInput _ => acc
            | .phoneInput s => if validatePhoneRegex s then some s else acc)
          acc = some s →
        validatePhoneRegex s = true := by
  induction es with
  | nil => intro acc h s hs; exact h s hs
  | cons e rest ih =>
      intro acc h s hs
      rw [List.foldl_cons] at hs
      refine ih _ ?_ s hs
      cases e with
      | emailInput t => exact h
      | phoneInput t =>
          by_cases ht : validatePhoneRegex t
          · intro u hu
            simp only [ht, if_true, Option.some.injEq] at hu
            exact hu ▸ ht
          · simpa [ht] using h

/-- C9: after any sequence of email/phone field events, the stored email
(resp. phone) is exactly the most recent input that passed the email
(resp. phone) regex — rejected input only clears the validity flag — and
hence any stored value satisfies its regex.  `handleSubmit` reads exactly
these stored values into the posted appointment. -/
theorem c9_contact_state_invariant (es : List ContactEvent) :
    (runContactEvents es).email = lastPassingEmail es ∧
    (runContactEvents es).phone = lastPassingPhone es ∧
    (∀ s, (runContactEvents es).email = some s → validateEmailRegex s = true) ∧
    (∀ s, (runContactEvents es).phone = some s → validatePhoneRegex s = true) := by
  have hemail : (runContactEvents es).email = lastPassingEmail es := by
    unfold runContactEvents lastPassingEmail
    rw [email_foldl es initialContactState]
    rfl
  have hphone : (runContactEvents es).phone = lastPassingPhone es := by
    unfold runContactEvents lastPassingPhone
    rw [phone_foldl es initialContactState]
    rfl
  refine ⟨hemail, hphone, ?_, ?_⟩
  · intro s hs
    rw [hemail] at hs
    unfold lastPassingEmail at hs
    exact emailAcc_valid es none (fun u hu => by cases hu) s hs
  · intro s hs
    rw [hphone] at hs
    unfold lastPassingPhone at hs
    exact phoneAcc_valid es none (fun u hu => by cases hu) s hs

/-- C9 (witness): the invariant applied to a concrete event sequence in
which a failing email input follows a passing one — the stored values are
the passing inputs and satisfy the validators. -/
theorem c9_contact_state_invariant_witness :
    validateEmailRegex "jane@doe.com" = true ∧
    validatePhoneRegex "(555) 123-4567" = true := by
  have h := c9_contact_state_invariant
    [ContactEvent.emailInput "jane@doe.com",
     ContactEvent.phoneInput "(555) 123-4567",
     ContactEvent.emailInput "jane@doe"]
  exact ⟨h.2.2.1 "jane@doe.com" (by decide), h.2.2.2 "(555) 123-4567" (by decide)⟩

theorem findEntry_applyRecord_other (sched : Schedule) (r : BookingRecord)
    (d : String) (hd : d ≠ r.date) :
    findEntry (applyRecord sched r) d = findEntry sched d := by
  rcases hcase : findEntry sched r.date with _ | e
  · rw [applyRecord_of_none sched r hcase, findEntry_setEntry, if_neg hd,
      findEntry_setEntry, if_neg hd]
  · cases e with
    | fullyBooked => rw [applyRecord_of_full sched r hcase]
    | bitmap bits0 =>
        rw [applyRecord_of_bitmap sched r bits0 hcase, findEntry_setEntry, if_neg hd]

theorem getD_of_all (bits : List Bool) (i : Nat)
    (hall : bits.all (· == true) = true) (hi : i < bits.length) :
    bits.getD i false = true := by
  induction bits generalizing i with
  | nil => simp at hi
  | cons b bs ih =>
      simp only [List.all_cons, Bool.and_eq_true, beq_iff_eq] at hall
      cases i with
      | zero => simpa using hall.1
      | succ n =>
          simp only [List.getD_cons_succ]
          exact ih n hall.2 (by simpa using hi)

theorem collapse_full_cases (e : ScheduleEntry) (h : collapseEntry e = .fullyBooked) :
    e = .fullyBooked ∨
      ∃ bits, e = .bitmap bits ∧ bits ≠ [] ∧ bits.all (· == true) = true := by
  cases e with
  | fullyBooked => exact Or.inl rfl
  | bitmap bits =>
      refine Or.inr ⟨bits, rfl, ?_, ?_⟩ <;>
        by_cases hc : (decide (bits.length ≠ 0) && bits.all (· == true)) = true
      · have := (Bool.and_eq_true _ _).mp hc
        simpa using List.ne_nil_of_length_pos (Nat.pos_of_ne_zero (by simpa using this.1))
      · simp only [collapseEntry, hc, if_false] at h; cases h
      · exact ((Bool.and_eq_true _ _).mp hc).2
      · simp only [collapseEntry, hc, if_false] at h; cases h

theorem collapse_bitmap_cases (e : ScheduleEntry) (bits : List Bool)
    (h : collapseEntry e = .bitmap bits) :
    e = .bitmap bits ∧ (decide (bits.length ≠ 0) && bits.all (· == true)) = false := by
  cases e with
  | fullyBooked => cases h
  | bitmap bits0 =>
      by_cases hc : (decide (bits0.length ≠ 0) && bits0.all (· == true)) = true
      · simp only [collapseEntry, hc, if_true] at h; cases h
      · simp only [collapseEntry, hc, if_false] at h
        cases h
        exact ⟨rfl, by simpa using hc⟩

theorem takenSpec_of_takenOrFull (F : Schedule) (d : String) (s : Fin 8)
    (h : takenOrFull F d s.val) :
    takenSpec (F.map (fun p => (p.1, collapseEntry p.2))) d s = true := by
  unfold takenSpec
  rw [findEntry_map_collapse]
  rcases h with h | ⟨bits, h, hb⟩
  · rw [h]; rfl
  · rw [h]
    simp only [Option.map_some']
    by_cases hc : (decide (bits.length ≠ 0) && bits.all (· == true)) = true
    · simp only [collapseEntry, hc, if_true]
    · simp only [collapseEntry, hc, if_false]
      exact hb

theorem takenOrFull_of_takenSpec (F : Schedule) (d : String) (s : Fin 8)
    (hlen : bitmapsLen8 F)
    (h : takenSpec (F.map (fun p => (p.1, collapseEntry p.2))) d s = true) :
    takenOrFull F d s.val := by
  unfold takenSpec at h
  rw [findEntry_map_collapse] at h
  rcases hf : findEntry F d with _ | e
  · rw [hf] at h; cases h
  · rw [hf] at h
    simp only [Option.map_some'] at h
    cases e with
    | fullyBooked => exact Or.inl hf
    | bitmap bits =>
        refine Or.inr ⟨bits, hf, ?_⟩
        by_cases hc : (decide (bits.length ≠ 0) && bits.all (· == true)) = true
        · exact getD_of_all bits s.val ((Bool.and_eq_true _ _).mp hc).2
            (by rw [hlen d bits hf]; exact s.isLt)
        · simpa only [collapseEntry, hc, if_false] using h

/-- C4: if a record list covers all 8 slot indices of a day with (at
least) 8 distinct records, the built schedule's entry for that day is
`FullyBooked` — the boolean, not a bitmap — and the day query rejects the
day; in general, after the collapse pass no entry is a bitmap of 8
all-true positions. -/
theorem c4_collapse_invariant (rs : List BookingRecord) (today : Date) :
    (∀ day : Date,
      (∀ s : Fin 8, ∃ r ∈ rs, r.date = formatYDM day ∧ r.slot = s) →
      findEntry (build rs today) (formatYDM day) = some .fullyBooked ∧
      checkDisableDate (build rs today) today day = true) ∧
    (∀ d bits, findEntry (build rs today) d = some (.bitmap bits) →
      bits.length = 8 → bits.all (· == true) = false) := by
  have hlen8 : bitmapsLen8 (rs.foldl applyRecord (initSched today)) :=
    bitmapsLen8_foldl rs (initSched today) (bitmapsLen8_init today)
  constructor
  · intro day hcover
    have htaken : ∀ s : Fin 8,
        takenOrFull (rs.foldl applyRecord (initSched today)) (formatYDM day) s.val := by
      intro s
      obtain ⟨r, hr, hd, hs⟩ := hcover s
      have h := mem_foldl_taken rs (initSched today) r hr (bitmapsLen8_init today)
      rwa [hd, hs] at h
    have hfull : findEntry (build rs today) (formatYDM day) = some .fullyBooked := by
      rw [findEntry_build]
      rcases hf : findEntry (rs.foldl applyRecord (initSched today)) (formatYDM day)
        with _ | e
      · rcases htaken 0 with h | ⟨bits, h, _⟩ <;> rw [hf] at h <;> cases h
      · cases e with
        | fullyBooked => rfl
        | bitmap bits =>
            have hblen : bits.length = 8 := hlen8 _ bits hf
            have hbits : ∀ s : Fin 8, bits.getD s.val false = true := by
              intro s
              rcases htaken s with h | ⟨bits2, h, hb⟩
              · rw [hf] at h; cases h
              · rw [hf] at h
                cases h
                exact hb
            have hall : bits.all (· == true) = true := by
              refine all_of_getD bits ?_
              intro i hi
              exact hbits ⟨i, by rwa [hblen] at hi⟩
            have hcond : (decide (bits.length ≠ 0) && bits.all (· == true)) = true := by
              rw [hblen, hall]; decide
            simp only [Option.map_some', collapseEntry, hcond, if_true]
    refine ⟨hfull, ?_⟩
    unfold checkDisableDate
    rw [hfull]
    rfl
  · intro d bits h hblen
    rw [findEntry_build] at h
    rcases hf : findEntry (rs.foldl applyRecord (initSched today)) d with _ | e
    · rw [hf] at h; cases h
    · rw [hf] at h
      simp only [Option.map_some'] at h
      have hcases := collapse_bitmap_cases e bits (by injection h)
      have hc := hcases.2
      rw [Bool.and_eq_false_iff] at hc
      rcases hc with hc | hc
      · exfalso
        rw [hblen] at hc
        simp at hc
      · exact hc

/-- C4 (witness): eight distinct records covering slots 0–7 of
June 16 2024 collapse that day to `FullyBooked` and disable it, while the
seeded today keeps no all-true bitmap anywhere. -/
theorem c4_collapse_invariant_witness :
    findEntry
        (build [⟨"2024-16-06", 0⟩, ⟨"2024-16-06", 1⟩, ⟨"2024-16-06", 2⟩,
                ⟨"2024-16-06", 3⟩, ⟨"2024-16-06", 4⟩, ⟨"2024-16-06", 5⟩,
                ⟨"2024-16-06", 6⟩, ⟨"2024-16-06", 7⟩] ⟨2024, 6, 15⟩)
        (formatYDM ⟨2024, 6, 16⟩) = some .fullyBooked ∧
    checkDisableDate
        (build [⟨"2024-16-06", 0⟩, ⟨"2024-16-06", 1⟩, ⟨"2024-16-06", 2⟩,
                ⟨"2024-16-06", 3⟩, ⟨"2024-16-06", 4⟩, ⟨"2024-16-06", 5⟩,
                ⟨"2024-16-06", 6⟩, ⟨"2024-16-06", 7⟩] ⟨2024, 6, 15⟩)
        ⟨2024, 6, 15⟩ ⟨2024, 6, 16⟩ = true :=
  (c4_collapse_invariant
      [⟨"2024-16-06", 0⟩, ⟨"2024-16-06", 1⟩, ⟨"2024-16-06", 2⟩,
       ⟨"2024-16-06", 3⟩, ⟨"2024-16-06", 4⟩, ⟨"2024-16-06", 5⟩,
       ⟨"2024-16-06", 6⟩, ⟨"2024-16-06", 7⟩] ⟨2024, 6, 15⟩).1
    ⟨2024, 6, 16⟩
    (by decide)

/-- C5: the schedule builder is idempotent on duplicate records —
appending a copy of the whole record list changes nothing, and a
duplicated single record produces the same schedule as one copy (no
conflict or error path exists). -/
theorem c5_build_idempotent (rs : List BookingRecord) (today : Date) :
    build (rs ++ rs) today = build rs today ∧
    ∀ r : BookingRecord, build (r :: r :: rs) today = build (r :: rs) today := by
  constructor
  · rw [build_eq_foldl, build_eq_foldl, List.foldl_append]
    congr 1
    refine foldl_absorb rs _ ?_
    intro r hr
    exact apply_absorb _ r (mem_foldl_taken rs (initSched today) r hr (bitmapsLen8_init today))
  · intro r
    rw [build_eq_foldl, build_eq_foldl]
    congr 1
    rw [List.foldl_cons, List.foldl_cons, List.foldl_cons,
      apply_absorb (applyRecord (initSched today) r) r
        (apply_self_taken (initSched today) r (bitmapsLen8_init today))]

/-- C10: appending a record never frees a slot or re-enables a day.
"Taken" is the schedule-level notion (`takenSpec`: `FullyBooked`, or the
bitmap bit set): every slot taken under `build rs` stays taken under
`build (rs ++ [r])`, every day `checkDisableDate` rejects stays rejected,
and today's seeded `FullyBooked` entry is never downgraded to a bitmap. -/
theorem c10_append_monotone (rs : List BookingRecord) (r : BookingRecord)
    (today : Date) :
    (∀ (d : String) (s : Fin 8), takenSpec (build rs today) d s = true →
      takenSpec (build (rs ++ [r]) today) d s = true) ∧
    (∀ day : Date, checkDisableDate (build rs today) today day = true →
      checkDisableDate (build (rs ++ [r]) today) today day = true) ∧
    findEntry (build (rs ++ [r]) today) (formatYDM today) = some .fullyBooked := by
  have hfold : (rs ++ [r]).foldl applyRecord (initSched today) =
      applyRecord (rs.foldl applyRecord (initSched today)) r := by
    rw [List.foldl_append]
    rfl
  have hlen8 : bitmapsLen8 (rs.foldl applyRecord (initSched today)) :=
    bitmapsLen8_foldl rs (initSched today) (bitmapsLen8_init today)
  refine ⟨?_, ?_, build_today_full (rs ++ [r]) today⟩
  · intro d s h
    rw [build_eq_foldl] at h
    have h1 := takenOrFull_of_takenSpec _ d s hlen8 h
    have h2 := taken_apply_mono _ r d s.val h1
    rw [build_eq_foldl, hfold]
    exact takenSpec_of_takenOrFull _ d s h2
  · intro day h
    unfold checkDisableDate at h ⊢
    rcases hbefore : dateBefore day today with _ | _
    · rw [hbefore, Bool.or_false] at h
      have hfull : findEntry (build rs today) (formatYDM day) = some .fullyBooked := by
        simpa using h
      rw [build_eq_foldl, findEntry_map_collapse] at hfull
      rcases hf : findEntry (rs.foldl applyRecord (initSched today)) (formatYDM day)
        with _ | e
      · rw [hf] at hfull; cases hfull
      · rw [hf] at hfull
        simp only [Option.map_some'] at hfull
        have hfull2 : findEntry (build (rs ++ [r]) today) (formatYDM day) =
            some .fullyBooked := by
          rw [build_eq_foldl, hfold, findEntry_map_collapse]
          rcases collapse_full_cases e (by injection hfull) with he | ⟨bits, he, hne, hall⟩
          · subst he
            rw [full_apply_mono _ r (formatYDM day) hf]
            rfl
          · subst he
            have hlen0 : bits.length ≠ 0 := fun h0 => hne (List.length_eq_zero.mp h0)
            by_cases hd : formatYDM day = r.date
            · rw [applyRecord_of_bitmap _ r bits (hd ▸ hf), ← hd, findEntry_setEntry,
                if_pos rfl]
              have hcond : (decide ((bits.set r.slot.val true).length ≠ 0) &&
                  (bits.set r.slot.val true).all (· == true)) = true := by
                refine (Bool.and_eq_true _ _).mpr
                  ⟨decide_eq_true ?_, all_set_true bits r.slot.val hall⟩
                rw [List.length_set]
                exact hlen0
              simp only [Option.map_some', collapseEntry, hcond, if_true]
            · rw [findEntry_applyRecord_other _ r (formatYDM day) hd, hf]
              have hcond : (decide (bits.length ≠ 0) && bits.all (· == true)) = true :=
                (Bool.and_eq_true _ _).mpr ⟨decide_eq_true hlen0, hall⟩
              simp only [Option.map_some', collapseEntry, hcond, if_true]
        rw [hfull2]
        rfl
    · simp

/-- C10 (witness): monotonicity applied to a concrete one-record list
extended by a second record on the same day: slot 0 stays taken and today
stays disabled. -/
theorem c10_append_monotone_witness :
    takenSpec (build ([⟨"2024-16-06", 0⟩] ++ [⟨"2024-16-06", 1⟩]) ⟨2024, 6, 15⟩)
      "2024-16-06" 0 = true ∧
    checkDisableDate (build ([⟨"2024-16-06", 0⟩] ++ [⟨"2024-16-06", 1⟩]) ⟨2024, 6, 15⟩)
      ⟨2024, 6, 15⟩ ⟨2024, 6, 15⟩ = true := by
  have h := c10_append_monotone [⟨"2024-16-06", 0⟩] ⟨"2024-16-06", 1⟩ ⟨2024, 6, 15⟩
  exact ⟨h.1 "2024-16-06" 0 (by decide), h.2.1 ⟨2024, 6, 15⟩ (by decide)⟩
